import Mathlib

/-!
# AudioSyncMaster — verification of the delay-estimation engine

Shallow embedding of the core of the AudioSyncMaster repository
(`python/bridge.py`, `Python Files/series_sync.py`, `Python Files/movie_sync.py`).

Samples are modelled as exact rationals (`ℚ`): the Python code works on float
arrays, and every arithmetic step of the estimator (mean subtraction, FFT
convolution, argmax, lag arithmetic) is the exact real computation the code
approximates.  One exception is `np.std`, a square root, which is irrational
on most inputs: the guard `std > 1e-8` is modelled by the equivalent
`variance > 1e-16`, and the *division* by the standard deviation is modelled
as division by the variance.  Both are positive uniform scalings of the same
buffer, and `estimate_scale_invariant` below proves that the estimate is
invariant under any positive uniform scaling of either normalized buffer, so
the modelled estimator returns exactly the value the Python code computes.

I/O (decoding audio, probing durations, the on-disk cache directory) is
modelled by explicit oracles/state passing, as documented at each definition.
-/

namespace AudioSync

/-! ## Core numeric helpers (numpy) -/

/-- `np.mean(y)` (0 on the empty array, where numpy would return NaN;
the code never takes the mean of an empty buffer on the paths we verify). -/
def npMean (y : List ℚ) : ℚ := y.sum / (y.length : ℚ)

/-- `np.std(y)` squared: the population variance `mean((y - mean y)²)`.
`np.std` itself is the (generally irrational) square root of this value. -/
def npVariance (y : List ℚ) : ℚ :=
  ((y.map (fun v => (v - npMean y) ^ 2)).sum) / (y.length : ℚ)

/-- The inner `_normalize` of `estimate_sync_offset_crosscorr`
(`series_sync.py` lines 166-171, `movie_sync.py` lines 134-139):
`y -= np.mean(y); std = np.std(y); if std > 1e-8: y /= std`.
The float guard `std > 1e-8` is the exact condition `variance > 1e-16`;
the division by `std` is modelled as division by the variance (see the
file comment: any positive uniform scaling yields the same estimate). -/
def _normalize (y : List ℚ) : List ℚ :=
  let c := y.map (fun v => v - npMean y)
  if npVariance y > 1 / 10 ^ 16 then c.map (fun v => v / npVariance y) else c

/-- `scipy.signal.fftconvolve(a, b, mode='full')`, computed exactly:
the linear convolution, a list of length `len a + len b - 1` whose entry `m`
is `∑ i, a[i] * b[m - i]` over the valid index pairs. -/
def fftconvolve_full (a b : List ℚ) : List ℚ :=
  (List.range (a.length + b.length - 1)).map
    (fun m => ∑ i ∈ Finset.range (m + 1), a.getD i 0 * b.getD (m - i) 0)

/-- `np.argmax`: index of the *first* occurrence of the maximum
(0 on the empty list, where numpy raises). -/
def npArgmax : List ℚ → ℕ
  | [] => 0
  | [_] => 0
  | x :: y :: t =>
    let j := npArgmax (y :: t)
    if (y :: t).getD j 0 ≤ x then 0 else j + 1

/-- `estimate_sync_offset_crosscorr(primary_audio, secondary_audio, sr)`
(`series_sync.py` lines 159-181, `movie_sync.py` lines 130-147):
normalize both buffers, cross-correlate by FFT convolution of the primary
with the reversed secondary in full mode, take the argmax, subtract
`len(y_s) - 1`, and convert the lag to milliseconds. -/
def estimate_sync_offset_crosscorr (primary_audio secondary_audio : List ℚ) (sr : ℚ) : ℚ :=
  let y_p := _normalize primary_audio
  let y_s := _normalize secondary_audio
  let corr := fftconvolve_full y_p y_s.reverse
  let lag : ℤ := (npArgmax corr : ℤ) - ((y_s.length : ℤ) - 1)
  (lag : ℚ) / sr * 1000

/-! ## Spec-side description of the estimator (for the refinement claim C2)

These definitions are written from the words of the spec (§4.5), not from the
source: the correlation is given directly as the convolution sum at an
arbitrary index, and "the integer index of the global maximum" is the least
index attaining the maximum (numpy's tie-breaking). -/

/-- Spec words: "subtract mean from each input, divide by standard deviation
if it exceeds 10⁻⁸" (same variance-based modelling as `_normalize`). -/
def specNormalize (y : List ℚ) : List ℚ :=
  if npVariance y > 1 / 10 ^ 16 then y.map (fun v => (v - npMean y) / npVariance y)
  else y.map (fun v => v - npMean y)

/-- Spec words: "cross-correlate via FFT-based convolution of `primary` with
the time-reversal of `secondary` in full mode" — the value of that
convolution at index `m`, as a function. -/
def specCorr (p s : List ℚ) (m : ℕ) : ℚ :=
  ∑ i ∈ Finset.range (m + 1),
    (specNormalize p).getD i 0 * ((specNormalize s).reverse).getD (m - i) 0

/-- Spec words: "locate the integer index of the global maximum" — the least
index `m < n` at which `g` attains its maximum over `{0, …, n-1}`. -/
def leastMaxIdx (g : ℕ → ℚ) (n : ℕ) : ℕ :=
  (((List.range n).filter (fun m => (List.range n).all (fun k => g k ≤ g m)))).headD 0

/-- The estimator exactly as the spec describes it: "the lag in samples is
`argmax − (len(secondary) − 1)`; return `lag / sr × 1000`". -/
def estimateSpec (p s : List ℚ) (sr : ℚ) : ℚ :=
  let n := (specNormalize p).length + (specNormalize s).length - 1
  let lag : ℤ := (leastMaxIdx (specCorr p s) n : ℤ) - (((specNormalize s).length : ℤ) - 1)
  (lag : ℚ) / sr * 1000

/-- Autocorrelation of `z` at non-negative shift `j`:
`∑_{i < len z - j} z[i] * z[i+j]`.  Every entry of
`fftconvolve_full z z.reverse` equals `acor z j` for some `j`. -/
def acor (z : List ℚ) (j : ℕ) : ℚ :=
  ∑ i ∈ Finset.range (z.length - j), z.getD i 0 * z.getD (i + j) 0

/-! ## Pair analyzers

`enhanced_process_pair` (`bridge.py` lines 190-242) and the simple
`process_pair` of `series_sync.py` (lines 184-260) / `movie_sync.py`
(lines 149-210).  Audio decoding and duration probing are I/O; they are
modelled by per-file oracles: `seg tag offset` is the buffer
`load_audio_segment` (resp. `load_audio`) returns for that acquisition, and
`dur` is the duration `get_audio_duration` returns.  The Python exception
handler of `process_pair` (re-raising unexpected errors as a result row) has
no counterpart in the pure model. -/

/-- Oracle for one file as seen by `enhanced_process_pair`:
`seg tag offset` = result of `load_audio_segment(path, sr, segment, offset, tag, window_sec)`,
`dur` = result of `get_audio_duration(path)`. -/
structure SegSource where
  seg : String → ℚ → Option (List ℚ)
  dur : Option ℚ

/-- Oracle for one file as seen by the simple `process_pair`:
`load offset` = result of `load_audio(path, sr, duration=segment, offset)`,
`dur` = result of `get_audio_duration(path)`. -/
structure RawSource where
  load : ℚ → Option (List ℚ)
  dur : Option ℚ

/-- The 5-tuple `(primary_path, secondary_path, start_delay, end_delay, error)`
returned by every pair analyzer. -/
structure PairReport where
  primaryPath : String
  secondaryPath : String
  startDelay : Option ℚ
  endDelay : Option ℚ
  error : Option String
deriving DecidableEq

/-- `os.path.basename`, modelled as the component after the last `/`. -/
def basename (path : String) : String := (path.splitOn "/").getLastD path

/-- `enhanced_process_pair(primary_path, secondary_path, segment_sec, verbose)`
(`bridge.py` lines 190-242).  `sr = 8000`.  The mid-segment delay computed at
lines 215-223 is only logged, never returned; it is omitted here. -/
def enhanced_process_pair (primary_path secondary_path : String)
    (P S : SegSource) (segment_sec : ℚ) : PairReport :=
  let sr : ℕ := 8000
  match P.seg "start" 0, S.seg "start" 0 with
  | some start_primary, some start_secondary =>
    let min_len := min start_primary.length start_secondary.length
    if min_len ≤ sr then
      ⟨primary_path, secondary_path, none, none,
        some "Insufficient audio at start for analysis."⟩
    else
      let start_delay := estimate_sync_offset_crosscorr
        (start_primary.take min_len) (start_secondary.take min_len) (sr : ℚ)
      match P.dur, S.dur with
      | some primary_duration, some secondary_duration =>
        match P.seg "end" (max 0 (primary_duration - segment_sec)),
              S.seg "end" (max 0 (secondary_duration - segment_sec)) with
        | some end_primary, some end_secondary =>
          let min_len_end := min end_primary.length end_secondary.length
          if min_len_end ≤ sr then
            ⟨primary_path, secondary_path, some start_delay, none,
              some "Insufficient audio at end for analysis."⟩
          else
            let end_delay_raw := estimate_sync_offset_crosscorr
              (end_primary.take min_len_end) (end_secondary.take min_len_end) (sr : ℚ)
            let duration_diff_ms := (primary_duration - secondary_duration) * 1000
            ⟨primary_path, secondary_path, some start_delay,
              some (end_delay_raw + duration_diff_ms), none⟩
        | _, _ =>
          ⟨primary_path, secondary_path, some start_delay, none,
            some "Failed to load end segment."⟩
      | _, _ =>
        ⟨primary_path, secondary_path, some start_delay, none,
          some "Could not get duration for analysis."⟩
  | _, _ =>
    ⟨primary_path, secondary_path, none, none, some "Failed to load start segment."⟩

/-- `process_pair(primary_path, secondary_path, segment_sec, verbose)` of
`series_sync.py` (lines 184-260).  `fast_sr = 8000`. -/
def series_process_pair (primary_path secondary_path : String)
    (P S : RawSource) (segment_sec : ℚ) : PairReport :=
  let fast_sr : ℕ := 8000
  match P.load 0 with
  | none =>
    ⟨primary_path, secondary_path, none, none,
      some ("Failed to load start of primary: " ++ basename primary_path)⟩
  | some primary_audio_start =>
    match S.load 0 with
    | none =>
      ⟨primary_path, secondary_path, none, none,
        some ("Failed to load start of secondary: " ++ basename secondary_path)⟩
    | some secondary_audio_start =>
      let min_len_start := min primary_audio_start.length secondary_audio_start.length
      if min_len_start > fast_sr then
        let start_delay := estimate_sync_offset_crosscorr
          (primary_audio_start.take min_len_start)
          (secondary_audio_start.take min_len_start) (fast_sr : ℚ)
        match P.dur, S.dur with
        | some primary_duration, some secondary_duration =>
          match P.load (max 0 (primary_duration - segment_sec)) with
          | none =>
            ⟨primary_path, secondary_path, some start_delay, none,
              some ("Failed to load end of primary: " ++ basename primary_path)⟩
          | some primary_audio_end =>
            match S.load (max 0 (secondary_duration - segment_sec)) with
            | none =>
              ⟨primary_path, secondary_path, some start_delay, none,
                some ("Failed to load end of secondary: " ++ basename secondary_path)⟩
            | some secondary_audio_end =>
              let min_len_end := min primary_audio_end.length secondary_audio_end.length
              if min_len_end > fast_sr then
                let end_delay_raw := estimate_sync_offset_crosscorr
                  (primary_audio_end.take min_len_end)
                  (secondary_audio_end.take min_len_end) (fast_sr : ℚ)
                let duration_diff_ms := (primary_duration - secondary_duration) * 1000
                ⟨primary_path, secondary_path, some start_delay,
                  some (end_delay_raw + duration_diff_ms), none⟩
              else
                ⟨primary_path, secondary_path, some start_delay, none,
                  some "Insufficient audio at end for analysis."⟩
        | _, _ =>
          ⟨primary_path, secondary_path, some start_delay, none,
            some "Could not get duration for end analysis."⟩
      else
        ⟨primary_path, secondary_path, none, none,
          some "Insufficient audio at start for analysis."⟩

/-- `process_pair(video_path, audio_path, segment_sec, verbose)` of
`movie_sync.py` (lines 149-210): identical control flow to
`series_process_pair`, with the movie-mode error strings. -/
def movie_process_pair (video_path audio_path : String)
    (V A : RawSource) (segment_sec : ℚ) : PairReport :=
  let fast_sr : ℕ := 8000
  match V.load 0 with
  | none =>
    ⟨video_path, audio_path, none, none,
      some ("Failed to load start of video: " ++ basename video_path)⟩
  | some video_audio_start =>
    match A.load 0 with
    | none =>
      ⟨video_path, audio_path, none, none,
        some ("Failed to load start of audio: " ++ basename audio_path)⟩
    | some secondary_audio_start =>
      let min_len_start := min video_audio_start.length secondary_audio_start.length
      if min_len_start > fast_sr then
        let start_delay := estimate_sync_offset_crosscorr
          (video_audio_start.take min_len_start)
          (secondary_audio_start.take min_len_start) (fast_sr : ℚ)
        match V.dur, A.dur with
        | some video_duration, some audio_duration =>
          match V.load (max 0 (video_duration - segment_sec)) with
          | none =>
            ⟨video_path, audio_path, some start_delay, none,
              some ("Failed to load end of video: " ++ basename video_path)⟩
          | some video_audio_end =>
            match A.load (max 0 (audio_duration - segment_sec)) with
            | none =>
              ⟨video_path, audio_path, some start_delay, none,
                some ("Failed to load end of audio: " ++ basename audio_path)⟩
            | some secondary_audio_end =>
              let min_len_end := min video_audio_end.length secondary_audio_end.length
              if min_len_end > fast_sr then
                let end_delay_raw := estimate_sync_offset_crosscorr
                  (video_audio_end.take min_len_end)
                  (secondary_audio_end.take min_len_end) (fast_sr : ℚ)
                let duration_diff_ms := (video_duration - audio_duration) * 1000
                ⟨video_path, audio_path, some start_delay,
                  some (end_delay_raw + duration_diff_ms), none⟩
              else
                ⟨video_path, audio_path, some start_delay, none,
                  some "Insufficient audio at end for analysis."⟩
        | _, _ =>
          ⟨video_path, audio_path, some start_delay, none,
            some "Could not get duration for end analysis."⟩
      else
        ⟨video_path, audio_path, none, none,
          some "Insufficient audio at start for analysis."⟩

/-! ## Energy windower (`bridge.py` lines 132-153)

`select_high_energy_window` calls `librosa.feature.rms`, external library
code.  `rmsFrames` models that call per librosa's documented default
behaviour (`center=True`): the signal is padded with `frame_length // 2`
zeros on each side, frames start every `hop` samples, and each frame's value
is the square root of the mean of the squared samples.  The square root is
computed by `rsqrt`, exact whenever the mean square is a square of a
rational (all concrete inputs below are chosen so that it is). -/

/-- Exact square root on rationals whose numerator and denominator are
perfect squares (the only values it is applied to in this file). -/
def rsqrt (q : ℚ) : ℚ := (Nat.sqrt q.num.toNat : ℚ) / (Nat.sqrt q.den : ℚ)

/-- `librosa.feature.rms(y=y, frame_length=frame, hop_length=hop)[0]`
(external library, modelled as documented: centered framing with zero
padding; number of frames `(len(padded) - frame) // hop + 1`). -/
def rmsFrames (y : List ℚ) (frame hop : ℕ) : List ℚ :=
  let pad := frame / 2
  let padded := List.replicate pad (0 : ℚ) ++ y ++ List.replicate pad (0 : ℚ)
  let n := (padded.length - frame) / hop + 1
  (List.range n).map (fun t =>
    rsqrt ((∑ i ∈ Finset.range frame, (padded.getD (t * hop + i) 0) ^ 2) / (frame : ℚ)))

/-- `np.convolve(a, v, mode='valid')` (used on the RMS sequence with a
uniform window): entry `m` is `∑_{i < len v} a[m+i] * v[len v - 1 - i]`,
for `m < len a - len v + 1`. -/
def convolve_valid (a v : List ℚ) : List ℚ :=
  (List.range (a.length + 1 - v.length)).map
    (fun m => ∑ i ∈ Finset.range v.length, a.getD (m + i) 0 * v.getD (v.length - 1 - i) 0)

/-- `int(max(1, window_sec * sr))` of `bridge.py` line 135 (`int` truncates
toward zero; the argument is ≥ 1, so this is the floor). -/
def windowLen (sr window_sec : ℚ) : ℕ := (max 1 ⌊window_sec * sr⌋).toNat

/-- `int(0.05 * sr)` (line 138). -/
def frameLen (sr : ℚ) : ℕ := ⌊(1 / 20 : ℚ) * sr⌋.toNat

/-- `int(0.025 * sr)` (line 139). -/
def hopLen (sr : ℚ) : ℕ := ⌊(1 / 40 : ℚ) * sr⌋.toNat

/-- `max(1, int(window_sec / (hop / sr)))` (line 145). -/
def windowFrames (sr window_sec : ℚ) (hop : ℕ) : ℕ :=
  max 1 ⌊window_sec / ((hop : ℚ) / sr)⌋.toNat

/-- `select_high_energy_window(y, sr, window_sec)` (`bridge.py` lines
132-153).  The `y is None` arm of the guard is represented by the caller
(an absent buffer never reaches the windower in this model). -/
def select_high_energy_window (y : List ℚ) (sr window_sec : ℚ) : List ℚ :=
  if y.length = 0 then y
  else
    let window_len := windowLen sr window_sec
    if y.length ≤ window_len then y
    else
      let frame := frameLen sr
      let hop := hopLen sr
      if frame = 0 ∨ hop = 0 then y.take window_len
      else
        let rms := rmsFrames y frame hop
        if rms.length = 0 then y.take window_len
        else
          let window_frames := windowFrames sr window_sec hop
          let idx :=
            if rms.length < window_frames then npArgmax rms
            else npArgmax (convolve_valid rms (List.replicate window_frames 1))
          (y.drop (idx * hop)).take window_len

/-- The window start index chosen by `select_high_energy_window`
(`bridge.py` lines 145-151): argmax of the convolved energy when there are
at least `window_frames` RMS frames, argmax of the raw RMS sequence
otherwise. -/
def selectIdx (y : List ℚ) (sr window_sec : ℚ) : ℕ :=
  let rms := rmsFrames y (frameLen sr) (hopLen sr)
  let wf := windowFrames sr window_sec (hopLen sr)
  if rms.length < wf then npArgmax rms
  else npArgmax (convolve_valid rms (List.replicate wf 1))

/-! ## Segment cache (`bridge.py` lines 100-129, 156-166)

The cache directory is modelled as an association list from keys to stored
arrays, persisted across program invocations (nothing in the code ever
deletes an entry).  `np.savez_compressed` overwrites the entry file, which
`put` models by shadowing; `sha256` is injective for the code's purposes and
is modelled as the identity on the hashed text. -/

/-- The on-disk cache directory: newest entry first, lookup takes the first
match (a later `put` on the same key shadows the older file contents). -/
def Cache := List (String × List ℚ)

/-- `cache_key(path, sr, duration, offset, tag)` (`bridge.py` lines 100-106).
`stat` is the result of `os.stat(path)` as `(st_mtime, st_size)`, or `none`
when stats cannot be read (`OSError`), in which case the key text omits
them.  The sha256 digest is modelled as the identity on the joined text. -/
def cache_key (path : String) (stat : Option (ℚ × ℤ)) (sr duration offset : ℚ)
    (tag : String) : String :=
  match stat with
  | some st =>
    path ++ "|" ++ toString st.1 ++ "|" ++ toString st.2 ++ "|" ++ toString sr ++ "|" ++
      toString duration ++ "|" ++ toString offset ++ "|" ++ tag
  | none =>
    path ++ "|" ++ toString sr ++ "|" ++ toString duration ++ "|" ++ toString offset ++
      "|" ++ tag

/-- `load_cached_array(key)` (`bridge.py` lines 109-119): read the entry file
if it exists (corrupted entries, which return `None`, are not modelled). -/
def load_cached_array (st : Cache) (key : String) : Option (List ℚ) :=
  match st with
  | [] => none
  | (k, v) :: rest => if k = key then some v else load_cached_array rest key

/-- `save_cached_array(key, arr)` (`bridge.py` lines 122-129): write the
entry file (best effort; the silent-failure arm is not modelled). -/
def save_cached_array (st : Cache) (key : String) (arr : List ℚ) : Cache :=
  (key, arr) :: st

/-- `load_audio_segment(path, sr, duration, offset, tag, window_sec)`
(`bridge.py` lines 156-166).  `decoded` is the oracle for the I/O call
`series_logic.load_audio(path, sr, duration, offset)`.  Returns the buffer
handed to the caller together with the cache directory contents after the
call. -/
def load_audio_segment (st : Cache) (path : String) (stat : Option (ℚ × ℤ))
    (sr duration offset : ℚ) (tag : String) (window_sec : ℚ)
    (decoded : Option (List ℚ)) : Option (List ℚ) × Cache :=
  let key := cache_key path stat sr duration offset tag
  match load_cached_array st key with
  | some cached => (some cached, st)
  | none =>
    match decoded with
    | none => (none, st)
    | some y =>
      let w := select_high_energy_window y sr window_sec
      (some w, save_cached_array st key w)

/-! ## Fingerprint matcher (`bridge.py` lines 184-187, 245-277)

`compute_fingerprint` is a chain of librosa feature extractors (external
library); it is modelled as an oracle `fp : path → Option fingerprint`
(`none` both when the segment fails to load and when the feature vector has
zero norm, exactly the two `None` sources in the code). -/

/-- `np.dot` on two equal-length vectors. -/
def dotQ (a b : List ℚ) : ℚ := (List.zipWith (· * ·) a b).sum

/-- `fingerprint_similarity(fp_a, fp_b)` (`bridge.py` lines 184-187):
`0.0` when either fingerprint is absent, else the dot product. -/
def fingerprint_similarity (fp_a fp_b : Option (List ℚ)) : ℚ :=
  match fp_a, fp_b with
  | some a, some b => dotQ a b
  | _, _ => 0

/-- The best-candidate scan of `match_by_fingerprint` (`bridge.py` lines
263-269): fold over the audio fingerprint cache in insertion order with
`best_audio = None`, `best_score = -1.0`, updating on strictly greater
scores. -/
def bestCandidate (video_fp : Option (List ℚ)) (audio_files : List String)
    (fp : String → Option (List ℚ)) : Option String × ℚ :=
  audio_files.foldl
    (fun best a =>
      let score := fingerprint_similarity video_fp (fp a)
      if best.2 < score then (some a, score) else best)
    (none, -1)

/-- `match_by_fingerprint(video_files, audio_files, segment_sec, threshold)`
(`bridge.py` lines 255-277).  A pair is appended when `best_audio` is truthy
(a non-empty path) and `best_score >= threshold`. -/
def match_by_fingerprint (video_files audio_files : List String)
    (fp : String → Option (List ℚ)) (threshold : ℚ) : List (String × String) :=
  video_files.filterMap (fun video_path =>
    let best := bestCandidate (fp video_path) audio_files fp
    match best.1 with
    | some best_audio =>
      if best_audio ≠ "" ∧ threshold ≤ best.2 then some (video_path, best_audio) else none
    | none => none)

/-! ## CSV savers (`movie_sync.py` lines 308-324, `series_sync.py` lines 521-537)

Modelled as the list of rows (header first) handed to `csv.writer`; each
cell the string Python would write.  Note: `movie_sync.py` never imports the
`csv` module, so at runtime its saver raises `NameError`, which its own
`except` swallows after writing nothing — the row construction below is
what the code *as written* would produce. -/

/-- A numeric cell: `value if value is not None else ""` stringified by the
csv writer. -/
def csvCell (v : Option ℚ) : String :=
  match v with
  | some q => toString q
  | none => ""

/-- The error cell: `err if err is not None else ""`. -/
def csvErrCell (e : Option String) : String := e.getD ""

/-- One data row of either saver. -/
def csvRow (r : PairReport) : List String :=
  [basename r.primaryPath, basename r.secondaryPath,
    csvCell r.startDelay, csvCell r.endDelay, csvErrCell r.error]

/-- `save_results_to_csv` of `movie_sync.py` (lines 308-324): header plus
one row per result. -/
def movie_save_results_to_csv (results : List PairReport) : List (List String) :=
  ["Video File", "Audio File", "Start Delay (ms)", "End Delay (ms)", "Error"] ::
    results.map csvRow

/-- `save_results_to_csv` of `series_sync.py` (lines 521-537): same rows,
different header. -/
def series_save_results_to_csv (results : List PairReport) : List (List String) :=
  ["Primary File", "Secondary File", "Start Delay (ms)", "End Delay (ms)", "Error"] ::
    results.map csvRow

/-! ## Frame effect of the estimator (claim C10)

`_normalize` operates on its argument with numpy's in-place `-=` and `/=`:
the caller's arrays alias `y_p`/`y_s`, so after
`estimate_sync_offset_crosscorr` returns, each caller-supplied buffer holds
its normalized form.  `estimatorPostBuffers` is that post-state. -/

/-- Contents of the two caller-supplied arrays after
`estimate_sync_offset_crosscorr(primary, secondary, sr)` returns. -/
def estimatorPostBuffers (primary secondary : List ℚ) : List ℚ × List ℚ :=
  (_normalize primary, _normalize secondary)

/-! ## Properties of `npArgmax` -/


/-- `np.argmax` returns a valid index on a non-empty list. -/
theorem npArgmax_lt_length : ∀ (l : List ℚ), l ≠ [] → npArgmax l < l.length := by
  intro l
  induction l using npArgmax.induct with
  | case1 => intro h; exact absurd rfl h
  | case2 x => intro _; simp [npArgmax]
  | case3 x y t j h ih => intro _; simp only [npArgmax]; rw [if_pos h]; simp
  | case4 x y t j h ih =>
    intro _
    simp only [npArgmax]
    rw [if_neg h]
    have := ih (by simp)
    simpa [Nat.succ_lt_succ_iff] using this

/-- The entry at `np.argmax` is a maximum. -/
theorem getD_le_getD_npArgmax : ∀ (l : List ℚ) (k : ℕ), k < l.length →
    l.getD k 0 ≤ l.getD (npArgmax l) 0 := by
  intro l
  induction l using npArgmax.induct with
  | case1 => intro k hk; simp at hk
  | case2 x =>
    intro k hk
    have : k = 0 := by simpa using hk
    subst this
    simp [npArgmax]
  | case3 x y t j h ih =>
    intro k hk
    simp only [npArgmax]
    rw [if_pos h]
    match k with
    | 0 => simp
    | k + 1 =>
      have hk' : k < (y :: t).length := by simpa [Nat.succ_lt_succ_iff] using hk
      have h1 := ih k hk'
      calc (x :: y :: t).getD (k + 1) 0 = (y :: t).getD k 0 := by simp
        _ ≤ (y :: t).getD (npArgmax (y :: t)) 0 := h1
        _ ≤ x := h
        _ = (x :: y :: t).getD 0 0 := by simp
  | case4 x y t j h ih =>
    intro k hk
    simp only [npArgmax]
    rw [if_neg h]
    match k with
    | 0 =>
      have hx : x ≤ (y :: t).getD (npArgmax (y :: t)) 0 := le_of_lt (lt_of_not_le h)
      simpa using hx
    | k + 1 =>
      have hk' : k < (y :: t).length := by simpa [Nat.succ_lt_succ_iff] using hk
      simpa using ih k hk'

/-- Entries strictly before `np.argmax` are strictly below the maximum:
numpy returns the first index attaining the maximum. -/
theorem getD_lt_getD_npArgmax : ∀ (l : List ℚ) (k : ℕ), k < npArgmax l →
    l.getD k 0 < l.getD (npArgmax l) 0 := by
  intro l
  induction l using npArgmax.induct with
  | case1 => intro k hk; simp [npArgmax] at hk
  | case2 x => intro k hk; simp [npArgmax] at hk
  | case3 x y t j h ih =>
    intro k hk
    simp only [npArgmax] at hk ⊢
    rw [if_pos h] at hk
    simp at hk
  | case4 x y t j h ih =>
    intro k hk
    simp only [npArgmax] at hk ⊢
    rw [if_neg h] at hk ⊢
    match k with
    | 0 => simpa using lt_of_not_le h
    | k + 1 =>
      have := ih k (by omega)
      simpa using this

/-- Characterization: if `i` is a maximizing index and every earlier entry is
strictly smaller, then `np.argmax` returns exactly `i`. -/
theorem npArgmax_eq_of (l : List ℚ) (i : ℕ) (hi : i < l.length)
    (hmax : ∀ k, k < l.length → l.getD k 0 ≤ l.getD i 0)
    (hfirst : ∀ k, k < i → l.getD k 0 < l.getD i 0) : npArgmax l = i := by
  have hne : l ≠ [] := by intro h; subst h; simp at hi
  rcases lt_trichotomy (npArgmax l) i with h | h | h
  · exact absurd (getD_le_getD_npArgmax l i hi) (not_le.mpr (hfirst _ h))
  · exact h
  · exact absurd (hmax _ (npArgmax_lt_length l hne)) (not_le.mpr (getD_lt_getD_npArgmax l i h))

/-! ## Entries of the full convolution -/

theorem fftconvolve_full_length (a b : List ℚ) :
    (fftconvolve_full a b).length = a.length + b.length - 1 := by
  simp [fftconvolve_full]

theorem fftconvolve_full_getD (a b : List ℚ) (m : ℕ)
    (h : m < a.length + b.length - 1) :
    (fftconvolve_full a b).getD m 0 =
      ∑ i ∈ Finset.range (m + 1), a.getD i 0 * b.getD (m - i) 0 := by
  have h' : m < (fftconvolve_full a b).length := by rwa [fftconvolve_full_length]
  rw [List.getD_eq_getElem _ _ h']
  simp [fftconvolve_full]

theorem getD_reverse (l : List ℚ) (k : ℕ) (h : k < l.length) :
    l.reverse.getD k 0 = l.getD (l.length - 1 - k) 0 := by
  have h1 : k < l.reverse.length := by simpa using h
  have h2 : l.length - 1 - k < l.length := by omega
  rw [List.getD_eq_getElem _ _ h1, List.getD_eq_getElem _ _ h2]
  simp [List.getElem_reverse]

/-- Entry `m ≤ n-1` of the autocorrelation list (`n := len z`):
the autocorrelation at (negative) lag `m - (n-1)`, i.e. shift `n-1-m`. -/
theorem conv_rev_getD_left (z : List ℚ) (m : ℕ) (hz : z ≠ [])
    (hm : m ≤ z.length - 1) :
    (fftconvolve_full z z.reverse).getD m 0 = acor z (z.length - 1 - m) := by
  have hn : 1 ≤ z.length := List.length_pos.mpr hz
  have hm' : m < z.length + z.reverse.length - 1 := by simp; omega
  rw [fftconvolve_full_getD _ _ _ hm']
  unfold acor
  have hrange : z.length - (z.length - 1 - m) = m + 1 := by omega
  rw [hrange]
  apply Finset.sum_congr rfl
  intro i hi
  rw [Finset.mem_range] at hi
  have hmi : m - i < z.length := by omega
  rw [getD_reverse _ _ hmi]
  have : z.length - 1 - (m - i) = i + (z.length - 1 - m) := by omega
  rw [this]

/-- Entry `m ≥ n-1` of the autocorrelation list: the autocorrelation at
(non-negative) lag `m - (n-1)`. -/
theorem conv_rev_getD_right (z : List ℚ) (m : ℕ) (hz : z ≠ [])
    (hm : z.length - 1 ≤ m) (hm2 : m < 2 * z.length - 1) :
    (fftconvolve_full z z.reverse).getD m 0 = acor z (m - (z.length - 1)) := by
  have hn : 1 ≤ z.length := List.length_pos.mpr hz
  set n := z.length with hndef
  set j := m - (n - 1) with hjdef
  have hm' : m < z.length + z.reverse.length - 1 := by simp; omega
  rw [fftconvolve_full_getD _ _ _ hm']
  unfold acor
  rw [show Finset.range (m + 1) = Finset.Ico 0 (m + 1) by rw [Finset.range_eq_Ico]]
  rw [← Finset.sum_Ico_consecutive _ (Nat.zero_le j) (by omega : j ≤ m + 1)]
  rw [← Finset.sum_Ico_consecutive _ (by omega : j ≤ n) (by omega : n ≤ m + 1)]
  have hlow : ∑ i ∈ Finset.Ico 0 j, z.getD i 0 * z.reverse.getD (m - i) 0 = 0 := by
    apply Finset.sum_eq_zero
    intro i hi
    rw [Finset.mem_Ico] at hi
    have : z.reverse.length ≤ m - i := by simp; omega
    rw [List.getD_eq_default _ _ this, mul_zero]
  have hhigh : ∑ i ∈ Finset.Ico n (m + 1), z.getD i 0 * z.reverse.getD (m - i) 0 = 0 := by
    apply Finset.sum_eq_zero
    intro i hi
    rw [Finset.mem_Ico] at hi
    rw [List.getD_eq_default _ _ (by omega : z.length ≤ i), zero_mul]
  rw [hlow, hhigh, zero_add, add_zero]
  rw [Finset.sum_Ico_eq_sum_range]
  apply Finset.sum_congr rfl
  intro i hi
  rw [Finset.mem_range] at hi
  have hmi : m - (j + i) < z.length := by omega
  rw [getD_reverse _ _ hmi]
  have h1 : z.length - 1 - (m - (j + i)) = i := by omega
  rw [h1, mul_comm]
  congr 2
  omega

/-! ## The autocorrelation maximum sits at zero lag -/

theorem getD_map (f : ℚ → ℚ) (l : List ℚ) (i : ℕ) (h : i < l.length) :
    (l.map f).getD i 0 = f (l.getD i 0) := by
  rw [List.getD_eq_getElem _ _ (by simpa using h), List.getD_eq_getElem _ _ h]
  simp

theorem acor_zero_eq (z : List ℚ) :
    acor z 0 = ∑ i ∈ Finset.range z.length, (z.getD i 0) ^ 2 := by
  unfold acor
  simp [sq]

/-- Strict Cauchy–Schwarz-type bound for the autocorrelation of a nonzero
buffer: every shifted autocorrelation is strictly below the zero-shift one. -/
theorem acor_lt_acor_zero (z : List ℚ) (hnz : ∃ i, z.getD i 0 ≠ 0)
    (j : ℕ) (hj1 : 1 ≤ j) (hj2 : j ≤ z.length - 1) : acor z j < acor z 0 := by
  set n := z.length with hn
  set g : ℕ → ℚ := fun i => z.getD i 0 with hg
  have hn2 : 2 ≤ n := by omega
  by_contra hcon
  push_neg at hcon
  have hacorj : acor z j = ∑ i ∈ Finset.range (n - j), g i * g (i + j) := rfl
  set A := ∑ i ∈ Finset.range (n - j), g i ^ 2 with hA
  set B := ∑ i ∈ Finset.range (n - j), g (i + j) ^ 2 with hB
  have hsum2 : 2 * acor z j ≤ A + B := by
    rw [hacorj, Finset.mul_sum, hA, hB, ← Finset.sum_add_distrib]
    apply Finset.sum_le_sum
    intro i _
    have := two_mul_le_add_sq (g i) (g (i + j))
    linarith
  have hBIco : B = ∑ i ∈ Finset.Ico j n, g i ^ 2 := by
    rw [hB, Finset.sum_Ico_eq_sum_range]
    apply Finset.sum_congr rfl
    intro i _
    rw [add_comm j i]
  have hF : acor z 0 = ∑ i ∈ Finset.range n, g i ^ 2 := acor_zero_eq z
  have hsplit : acor z 0 = A + ∑ i ∈ Finset.Ico (n - j) n, g i ^ 2 := by
    rw [hF, hA, Finset.range_eq_Ico, ← Finset.sum_Ico_consecutive _
      (Nat.zero_le (n - j)) (by omega : n - j ≤ n)]
  have hA_le : A ≤ acor z 0 := by
    rw [hsplit]
    have : (0:ℚ) ≤ ∑ i ∈ Finset.Ico (n - j) n, g i ^ 2 :=
      Finset.sum_nonneg (fun i _ => sq_nonneg _)
    linarith
  have hB_le : B ≤ acor z 0 := by
    rw [hBIco, hF]
    apply Finset.sum_le_sum_of_subset_of_nonneg
    · rw [Finset.range_eq_Ico]
      exact Finset.Ico_subset_Ico (Nat.zero_le _) le_rfl
    · intro i _ _
      exact sq_nonneg _
  have hAeq : A = acor z 0 := by linarith
  have hjeq : acor z j = acor z 0 := by linarith
  have hdiff : ∑ i ∈ Finset.range (n - j), (g i - g (i + j)) ^ 2 = 0 := by
    have hexp : ∀ i ∈ Finset.range (n - j),
        (g i - g (i + j)) ^ 2 = g i ^ 2 + g (i + j) ^ 2 - 2 * (g i * g (i + j)) := by
      intro i _
      ring
    rw [Finset.sum_congr rfl hexp]
    rw [Finset.sum_sub_distrib, Finset.sum_add_distrib, ← Finset.mul_sum]
    rw [← hA, ← hB, ← hacorj]
    linarith
  have hpair : ∀ i ∈ Finset.range (n - j), g i = g (i + j) := by
    intro i hi
    have h0 := (Finset.sum_eq_zero_iff_of_nonneg
      (fun i _ => sq_nonneg (g i - g (i + j)))).mp hdiff i hi
    have h1 := sq_eq_zero_iff.mp h0
    linarith
  have htailsum : ∑ i ∈ Finset.Ico (n - j) n, g i ^ 2 = 0 := by linarith [hsplit, hAeq]
  have htail : ∀ i, n - j ≤ i → i < n → g i = 0 := by
    intro i h1 h2
    have h0 := (Finset.sum_eq_zero_iff_of_nonneg
      (fun i _ => sq_nonneg (g i))).mp htailsum i (Finset.mem_Ico.mpr ⟨h1, h2⟩)
    exact sq_eq_zero_iff.mp h0
  have hall : ∀ d i, n ≤ i + d → g i = 0 := by
    intro d
    induction d with
    | zero =>
      intro i h
      exact List.getD_eq_default _ _ (by omega)
    | succ d ih =>
      intro i h
      by_cases hin : n ≤ i + d
      · exact ih i hin
      · by_cases hlow : n - j ≤ i
        · by_cases hi_n : i < n
          · exact htail i hlow hi_n
          · exact List.getD_eq_default _ _ (by omega)
        · have hmem : i ∈ Finset.range (n - j) := Finset.mem_range.mpr (by omega)
          rw [hpair i hmem]
          exact ih (i + j) (by omega)
  obtain ⟨i0, hi0⟩ := hnz
  exact hi0 (hall n i0 (by omega))

/-- The first global maximum of the autocorrelation list of a nonzero buffer
sits exactly at the center index `len z - 1` (zero lag). -/
theorem npArgmax_conv_rev (z : List ℚ) (hz : z ≠ []) (hnz : ∃ i, z.getD i 0 ≠ 0) :
    npArgmax (fftconvolve_full z z.reverse) = z.length - 1 := by
  have hn : 1 ≤ z.length := List.length_pos.mpr hz
  set n := z.length with hndef
  have hlen : (fftconvolve_full z z.reverse).length = 2 * n - 1 := by
    rw [fftconvolve_full_length]
    simp [hndef]
    omega
  have hcenter : (fftconvolve_full z z.reverse).getD (n - 1) 0 = acor z 0 := by
    rw [conv_rev_getD_left z (n - 1) hz le_rfl]
    congr 1
    omega
  apply npArgmax_eq_of
  · omega
  · intro k hk
    rw [hlen] at hk
    rw [hcenter]
    rcases le_or_lt k (n - 1) with hkle | hkgt
    · rw [conv_rev_getD_left z k hz (by omega)]
      rcases Nat.eq_or_lt_of_le hkle with heq | hlt
      · rw [heq]
        simp
      · exact le_of_lt (acor_lt_acor_zero z hnz (n - 1 - k) (by omega) (by omega))
    · rw [conv_rev_getD_right z k hz (by omega) (by omega)]
      exact le_of_lt (acor_lt_acor_zero z hnz (k - (n - 1)) (by omega) (by omega))
  · intro k hk
    rw [hcenter, conv_rev_getD_left z k hz (by omega)]
    exact acor_lt_acor_zero z hnz (n - 1 - k) (by omega) (by omega)

/-! ## Properties of `_normalize` -/

theorem _normalize_length (y : List ℚ) : (_normalize y).length = y.length := by
  unfold _normalize
  split <;> simp

/-- A buffer with two distinct samples has a nonzero entry after
normalization (mean subtraction cannot flatten it). -/
theorem _normalize_ne_zero (b : List ℚ)
    (hb : ∃ i j, i < b.length ∧ j < b.length ∧ b.getD i 0 ≠ b.getD j 0) :
    ∃ i, (_normalize b).getD i 0 ≠ 0 := by
  obtain ⟨i, j, hi, hj, hij⟩ := hb
  have hc : ∃ k, k < b.length ∧ (b.map (fun v => v - npMean b)).getD k 0 ≠ 0 := by
    by_contra h'
    push_neg at h'
    have hzi := h' i hi
    have hzj := h' j hj
    rw [getD_map _ _ _ hi] at hzi
    rw [getD_map _ _ _ hj] at hzj
    exact hij (by linarith)
  obtain ⟨k, hk, hck⟩ := hc
  unfold _normalize
  split
  · rename_i hvar
    refine ⟨k, ?_⟩
    rw [getD_map _ _ _ (by simpa using hk)]
    have hv : npVariance b ≠ 0 := by
      have : (0:ℚ) < 1 / 10 ^ 16 := by norm_num
      exact ne_of_gt (lt_trans this hvar)
    exact div_ne_zero hck hv
  · exact ⟨k, hck⟩

/-! ## `np.argmax` versus the spec-side least-max index -/


/-- Head of a filtered range: if `P a` holds, `a < n`, and `P` fails below
`a`, then `a` is the first element of `(range n).filter P`. -/
theorem range_filter_headD (P : ℕ → Bool) (n a : ℕ) (ha : a < n) (hPa : P a = true)
    (hbefore : ∀ k, k < a → P k = false) :
    ((List.range n).filter P).headD 0 = a := by
  have hsplit : List.range n = List.range a ++ (List.range (n - a)).map (a + ·) := by
    rw [← List.range_add]
    congr 1
    omega
  rw [hsplit, List.filter_append]
  have h1 : (List.range a).filter P = [] := by
    rw [List.filter_eq_nil_iff]
    intro x hx
    rw [List.mem_range] at hx
    simp [hbefore x hx]
  rw [h1, List.nil_append]
  have h2 : n - a = (n - a - 1) + 1 := by omega
  rw [h2, List.range_succ_eq_map, List.map_cons]
  rw [List.filter_cons]
  simp only [Nat.add_zero, hPa]
  simp

/-- `np.argmax` agrees with the spec's "least index attaining the global
maximum". -/
theorem npArgmax_eq_leastMaxIdx (l : List ℚ) (hl : l ≠ []) :
    npArgmax l = leastMaxIdx (fun k => l.getD k 0) l.length := by
  unfold leastMaxIdx
  symm
  apply range_filter_headD _ _ _ (npArgmax_lt_length l hl)
  · rw [List.all_eq_true]
    intro k hk
    rw [List.mem_range] at hk
    exact decide_eq_true (getD_le_getD_npArgmax l k hk)
  · intro k hk
    apply Bool.eq_false_iff.mpr
    intro hall
    rw [List.all_eq_true] at hall
    have h1 := hall (npArgmax l) (List.mem_range.mpr (npArgmax_lt_length l hl))
    rw [decide_eq_true_eq] at h1
    exact absurd h1 (not_le.mpr (getD_lt_getD_npArgmax l k hk))

/-- `leastMaxIdx` only depends on the values of `g` below `n`. -/
theorem leastMaxIdx_congr (g g' : ℕ → ℚ) (n : ℕ) (h : ∀ k, k < n → g k = g' k) :
    leastMaxIdx g n = leastMaxIdx g' n := by
  unfold leastMaxIdx
  congr 1
  apply List.filter_congr
  intro m hm
  rw [List.mem_range] at hm
  apply Bool.eq_iff_iff.mpr
  simp only [List.all_eq_true, List.mem_range, decide_eq_true_eq]
  constructor <;> intro hh k hk
  · rw [← h k hk, ← h m hm]
    exact hh k hk
  · rw [h k hk, h m hm]
    exact hh k hk

theorem specNormalize_eq (y : List ℚ) : specNormalize y = _normalize y := by
  simp only [specNormalize, _normalize]
  split_ifs with h
  · rw [List.map_map]
    rfl
  · rfl



theorem getD_map_linear (f : ℚ → ℚ) (hf : f 0 = 0) (l : List ℚ) (i : ℕ) :
    (l.map f).getD i 0 = f (l.getD i 0) := by
  by_cases h : i < l.length
  · exact getD_map f l i h
  · rw [List.getD_eq_default _ _ (by simpa using not_lt.mp h),
        List.getD_eq_default _ _ (not_lt.mp h), hf]

theorem npArgmax_map_mul_pos (e : ℚ) (he : 0 < e) :
    ∀ l : List ℚ, npArgmax (l.map (fun v => e * v)) = npArgmax l := by
  intro l
  induction l using npArgmax.induct with
  | case1 => rfl
  | case2 x => rfl
  | case3 x y t j h ih =>
    show npArgmax (e * x :: (y :: t).map (fun v => e * v)) = npArgmax (x :: y :: t)
    simp only [npArgmax, List.map_cons] at ih ⊢
    rw [ih, show (e * y :: List.map (fun v => e * v) t) = (y :: t).map (fun v => e * v) from rfl,
      getD_map_linear (fun v => e * v) (mul_zero e)]
    rw [if_pos (by exact (mul_le_mul_left he).mpr h), if_pos h]
  | case4 x y t j h ih =>
    show npArgmax (e * x :: (y :: t).map (fun v => e * v)) = npArgmax (x :: y :: t)
    simp only [npArgmax, List.map_cons] at ih ⊢
    rw [ih, show (e * y :: List.map (fun v => e * v) t) = (y :: t).map (fun v => e * v) from rfl,
      getD_map_linear (fun v => e * v) (mul_zero e)]
    rw [if_neg (fun hc => h ((mul_le_mul_left he).mp hc)), if_neg h]

theorem fftconvolve_full_map_mul (c d : ℚ) (a b : List ℚ) :
    fftconvolve_full (a.map (fun v => c * v)) (b.map (fun v => d * v)) =
      (fftconvolve_full a b).map (fun v => (c * d) * v) := by
  unfold fftconvolve_full
  simp only [List.length_map, List.map_map]
  apply List.map_congr_left
  intro m _
  simp only [Function.comp]
  rw [Finset.mul_sum]
  apply Finset.sum_congr rfl
  intro i _
  rw [getD_map_linear _ (mul_zero c), getD_map_linear _ (mul_zero d)]
  ring

/-- Dividing the two normalized buffers by arbitrary positive scalars (e.g.
by the true standard deviations instead of the variances used in
`_normalize`) leaves the estimate unchanged: the correlation scales by a
positive factor and the first-argmax is invariant.  This justifies modelling
`y /= np.std(y)` as division by the (rational) variance. -/
theorem estimate_scale_invariant (p s : List ℚ) (sr u v : ℚ)
    (hu : 0 < u) (hv : 0 < v) :
    (((npArgmax (fftconvolve_full ((_normalize p).map (fun x => x / u))
        (((_normalize s).map (fun x => x / v)).reverse)) : ℤ) -
      ((((_normalize s).map (fun x => x / v)).length : ℤ) - 1) : ℤ) / sr * 1000 : ℚ) =
      estimate_sync_offset_crosscorr p s sr := by
  have hdivu : ∀ (w : ℚ) (l : List ℚ), l.map (fun x => x / w) = l.map (fun x => w⁻¹ * x) := by
    intro w l
    apply List.map_congr_left
    intro x _
    rw [div_eq_inv_mul]
  have hrev : (((_normalize s).map (fun x => v⁻¹ * x)).reverse) =
      ((_normalize s).reverse).map (fun x => v⁻¹ * x) := by
    rw [List.map_reverse]
  have harg : npArgmax (fftconvolve_full ((_normalize p).map (fun x => x / u))
      (((_normalize s).map (fun x => x / v)).reverse)) =
      npArgmax (fftconvolve_full (_normalize p) (_normalize s).reverse) := by
    rw [hdivu u, hdivu v, hrev, fftconvolve_full_map_mul]
    exact npArgmax_map_mul_pos _ (by positivity) _
  rw [harg]
  simp only [estimate_sync_offset_crosscorr, List.length_map]

/-! ## String facts (non-emptiness of rendered cells and error messages) -/

theorem string_eq_empty_of_length (s : String) (h : s.length = 0) : s = "" := by
  cases s with
  | mk data =>
    simp [String.length] at h
    simp [h]

theorem append_ne_empty_left (a b : String) (h : a ≠ "") : a ++ b ≠ "" := by
  intro hc
  apply h
  have hl := congrArg String.length hc
  rw [String.length_append] at hl
  have h0 : ("" : String).length = 0 := rfl
  exact string_eq_empty_of_length a (by omega)

theorem append_ne_empty_right (a b : String) (h : b ≠ "") : a ++ b ≠ "" := by
  intro hc
  apply h
  have hl := congrArg String.length hc
  rw [String.length_append] at hl
  have h0 : ("" : String).length = 0 := rfl
  exact string_eq_empty_of_length b (by omega)

theorem toDigitsCore_ne_nil (b : ℕ) : ∀ (f n : ℕ) (l : List Char), l ≠ [] →
    Nat.toDigitsCore b f n l ≠ [] := by
  intro f
  induction f with
  | zero =>
    intro n l h
    simpa [Nat.toDigitsCore] using h
  | succ f ih =>
    intro n l h
    simp only [Nat.toDigitsCore]
    split
    · simp
    · exact ih _ _ (by simp)

theorem natRepr_ne_empty (n : ℕ) : Nat.repr n ≠ "" := by
  have h : Nat.toDigits 10 n ≠ [] := by
    simp only [Nat.toDigits, Nat.toDigitsCore]
    split
    · simp
    · exact toDigitsCore_ne_nil 10 _ _ _ (by simp)
  simp only [Nat.repr]
  intro hc
  apply h
  have hd := congrArg String.data hc
  simpa [List.asString] using hd

theorem intToString_ne_empty (i : ℤ) : toString i ≠ "" := by
  show Int.repr i ≠ ""
  unfold Int.repr
  split
  · exact natRepr_ne_empty _
  · exact append_ne_empty_left _ _ (by decide)

/-- Python's `str` of a number is never the empty string; in the model,
`toString` on `ℚ` is never empty. -/
theorem ratToString_ne_empty (q : ℚ) : toString q ≠ "" := by
  show (if q.den = 1 then toString q.num
    else toString "" ++ toString q.num ++ toString "/" ++ toString q.den ++ toString "") ≠ ""
  split_ifs
  · exact intToString_ne_empty _
  · exact append_ne_empty_left _ _ (append_ne_empty_left _ _
      (append_ne_empty_right _ _ (by decide)))

/-! ## Pair-analyzer lemmas (for claims C1 and C4) -/

theorem enh_end_delay_eq (primary_path secondary_path : String) (P S : SegSource)
    (segment_sec : ℚ) (sp ss ep es : List ℚ) (dp ds : ℚ)
    (h1 : P.seg "start" 0 = some sp) (h2 : S.seg "start" 0 = some ss)
    (hstart : 8000 < min sp.length ss.length)
    (h3 : P.dur = some dp) (h4 : S.dur = some ds)
    (h5 : P.seg "end" (max 0 (dp - segment_sec)) = some ep)
    (h6 : S.seg "end" (max 0 (ds - segment_sec)) = some es)
    (hend : 8000 < min ep.length es.length) :
    (enhanced_process_pair primary_path secondary_path P S segment_sec).endDelay =
      some (estimate_sync_offset_crosscorr
        (ep.take (min ep.length es.length)) (es.take (min ep.length es.length)) 8000 +
        (dp - ds) * 1000) := by
  unfold enhanced_process_pair
  rw [h1, h2]
  simp only [h3, h4, h5, h6]
  rw [if_neg (not_le.mpr hstart), if_neg (not_le.mpr hend)]
  norm_num

theorem series_end_delay_eq (primary_path secondary_path : String) (P S : RawSource)
    (segment_sec : ℚ) (sp ss ep es : List ℚ) (dp ds : ℚ)
    (h1 : P.load 0 = some sp) (h2 : S.load 0 = some ss)
    (hstart : 8000 < min sp.length ss.length)
    (h3 : P.dur = some dp) (h4 : S.dur = some ds)
    (h5 : P.load (max 0 (dp - segment_sec)) = some ep)
    (h6 : S.load (max 0 (ds - segment_sec)) = some es)
    (hend : 8000 < min ep.length es.length) :
    (series_process_pair primary_path secondary_path P S segment_sec).endDelay =
      some (estimate_sync_offset_crosscorr
        (ep.take (min ep.length es.length)) (es.take (min ep.length es.length)) 8000 +
        (dp - ds) * 1000) := by
  unfold series_process_pair
  rw [h1, h2]
  simp only [h3, h4, h5, h6]
  rw [if_pos hstart, if_pos hend]
  norm_num

theorem movie_end_delay_eq (video_path audio_path : String) (V A : RawSource)
    (segment_sec : ℚ) (sp ss ep es : List ℚ) (dp ds : ℚ)
    (h1 : V.load 0 = some sp) (h2 : A.load 0 = some ss)
    (hstart : 8000 < min sp.length ss.length)
    (h3 : V.dur = some dp) (h4 : A.dur = some ds)
    (h5 : V.load (max 0 (dp - segment_sec)) = some ep)
    (h6 : A.load (max 0 (ds - segment_sec)) = some es)
    (hend : 8000 < min ep.length es.length) :
    (movie_process_pair video_path audio_path V A segment_sec).endDelay =
      some (estimate_sync_offset_crosscorr
        (ep.take (min ep.length es.length)) (es.take (min ep.length es.length)) 8000 +
        (dp - ds) * 1000) := by
  unfold movie_process_pair
  rw [h1, h2]
  simp only [h3, h4, h5, h6]
  rw [if_pos hstart, if_pos hend]
  norm_num

theorem enh_wellformed (primary_path secondary_path : String) (P S : SegSource)
    (segment_sec : ℚ) :
    ((enhanced_process_pair primary_path secondary_path P S segment_sec).endDelay.isSome →
      (enhanced_process_pair primary_path secondary_path P S segment_sec).startDelay.isSome) ∧
    (((enhanced_process_pair primary_path secondary_path P S segment_sec).startDelay = none ∨
      (enhanced_process_pair primary_path secondary_path P S segment_sec).endDelay = none) →
      ∃ m, (enhanced_process_pair primary_path secondary_path P S segment_sec).error = some m ∧
        m ≠ "") := by
  unfold enhanced_process_pair
  rcases h1 : P.seg "start" 0 with _ | sp <;> rcases h2 : S.seg "start" 0 with _ | ss <;>
    simp only []
  · exact ⟨by simp, fun _ => ⟨_, rfl, by decide⟩⟩
  · exact ⟨by simp, fun _ => ⟨_, rfl, by decide⟩⟩
  · exact ⟨by simp, fun _ => ⟨_, rfl, by decide⟩⟩
  · split_ifs with hlen
    · exact ⟨by simp, fun _ => ⟨_, rfl, by decide⟩⟩
    · rcases h3 : P.dur with _ | dp <;> rcases h4 : S.dur with _ | ds <;> simp only []
      · exact ⟨by simp, fun _ => ⟨_, rfl, by decide⟩⟩
      · exact ⟨by simp, fun _ => ⟨_, rfl, by decide⟩⟩
      · exact ⟨by simp, fun _ => ⟨_, rfl, by decide⟩⟩
      · rcases h5 : P.seg "end" (max 0 (dp - segment_sec)) with _ | ep <;>
          rcases h6 : S.seg "end" (max 0 (ds - segment_sec)) with _ | es <;> simp only []
        · exact ⟨by simp, fun _ => ⟨_, rfl, by decide⟩⟩
        · exact ⟨by simp, fun _ => ⟨_, rfl, by decide⟩⟩
        · exact ⟨by simp, fun _ => ⟨_, rfl, by decide⟩⟩
        · split_ifs with hlen2
          · exact ⟨by simp, fun _ => ⟨_, rfl, by decide⟩⟩
          · refine ⟨by simp, fun hc => ?_⟩
            simp at hc

theorem series_wellformed (primary_path secondary_path : String) (P S : RawSource)
    (segment_sec : ℚ) :
    ((series_process_pair primary_path secondary_path P S segment_sec).endDelay.isSome →
      (series_process_pair primary_path secondary_path P S segment_sec).startDelay.isSome) ∧
    (((series_process_pair primary_path secondary_path P S segment_sec).startDelay = none ∨
      (series_process_pair primary_path secondary_path P S segment_sec).endDelay = none) →
      ∃ m, (series_process_pair primary_path secondary_path P S segment_sec).error = some m ∧
        m ≠ "") := by
  unfold series_process_pair
  rcases h1 : P.load 0 with _ | sp <;> simp only []
  · exact ⟨by simp, fun _ => ⟨_, rfl, append_ne_empty_left _ _ (by decide)⟩⟩
  · rcases h2 : S.load 0 with _ | ss <;> simp only []
    · exact ⟨by simp, fun _ => ⟨_, rfl, append_ne_empty_left _ _ (by decide)⟩⟩
    · split_ifs with hlen
      · rcases h3 : P.dur with _ | dp <;> rcases h4 : S.dur with _ | ds <;> simp only []
        · exact ⟨by simp, fun _ => ⟨_, rfl, by decide⟩⟩
        · exact ⟨by simp, fun _ => ⟨_, rfl, by decide⟩⟩
        · exact ⟨by simp, fun _ => ⟨_, rfl, by decide⟩⟩
        · rcases h5 : P.load (max 0 (dp - segment_sec)) with _ | ep <;> simp only []
          · exact ⟨by simp, fun _ => ⟨_, rfl, append_ne_empty_left _ _ (by decide)⟩⟩
          · rcases h6 : S.load (max 0 (ds - segment_sec)) with _ | es <;> simp only []
            · exact ⟨by simp, fun _ => ⟨_, rfl, append_ne_empty_left _ _ (by decide)⟩⟩
            · split_ifs with hlen2
              · refine ⟨by simp, fun hc => ?_⟩
                simp at hc
              · exact ⟨by simp, fun _ => ⟨_, rfl, by decide⟩⟩
      · exact ⟨by simp, fun _ => ⟨_, rfl, by decide⟩⟩

theorem movie_wellformed (video_path audio_path : String) (V A : RawSource)
    (segment_sec : ℚ) :
    ((movie_process_pair video_path audio_path V A segment_sec).endDelay.isSome →
      (movie_process_pair video_path audio_path V A segment_sec).startDelay.isSome) ∧
    (((movie_process_pair video_path audio_path V A segment_sec).startDelay = none ∨
      (movie_process_pair video_path audio_path V A segment_sec).endDelay = none) →
      ∃ m, (movie_process_pair video_path audio_path V A segment_sec).error = some m ∧
        m ≠ "") := by
  unfold movie_process_pair
  rcases h1 : V.load 0 with _ | sp <;> simp only []
  · exact ⟨by simp, fun _ => ⟨_, rfl, append_ne_empty_left _ _ (by decide)⟩⟩
  · rcases h2 : A.load 0 with _ | ss <;> simp only []
    · exact ⟨by simp, fun _ => ⟨_, rfl, append_ne_empty_left _ _ (by decide)⟩⟩
    · split_ifs with hlen
      · rcases h3 : V.dur with _ | dp <;> rcases h4 : A.dur with _ | ds <;> simp only []
        · exact ⟨by simp, fun _ => ⟨_, rfl, by decide⟩⟩
        · exact ⟨by simp, fun _ => ⟨_, rfl, by decide⟩⟩
        · exact ⟨by simp, fun _ => ⟨_, rfl, by decide⟩⟩
        · rcases h5 : V.load (max 0 (dp - segment_sec)) with _ | ep <;> simp only []
          · exact ⟨by simp, fun _ => ⟨_, rfl, append_ne_empty_left _ _ (by decide)⟩⟩
          · rcases h6 : A.load (max 0 (ds - segment_sec)) with _ | es <;> simp only []
            · exact ⟨by simp, fun _ => ⟨_, rfl, append_ne_empty_left _ _ (by decide)⟩⟩
            · split_ifs with hlen2
              · refine ⟨by simp, fun hc => ?_⟩
                simp at hc
              · exact ⟨by simp, fun _ => ⟨_, rfl, by decide⟩⟩
      · exact ⟨by simp, fun _ => ⟨_, rfl, by decide⟩⟩

/-! ## Fingerprint-matcher lemmas (for claim C6) -/

/-- Behaviour of the best-candidate fold: the final accumulator is either the
initial one or carries some scanned file together with its score; the score
component never decreases and dominates every scanned score. -/
theorem bestCandidate_foldl_spec (f : String → ℚ) :
    ∀ (l : List String) (acc : Option String × ℚ),
    (l.foldl (fun best a => if best.2 < f a then (some a, f a) else best) acc = acc ∨
      ∃ a ∈ l, (l.foldl (fun best a => if best.2 < f a then (some a, f a) else best) acc).1
          = some a ∧
        (l.foldl (fun best a => if best.2 < f a then (some a, f a) else best) acc).2 = f a) ∧
    acc.2 ≤ (l.foldl (fun best a => if best.2 < f a then (some a, f a) else best) acc).2 ∧
    (∀ a ∈ l, f a ≤ (l.foldl (fun best a => if best.2 < f a then (some a, f a) else best) acc).2) := by
  intro l
  induction l with
  | nil => exact fun acc => ⟨Or.inl rfl, le_rfl, by simp⟩
  | cons a t ih =>
    intro acc
    simp only [List.foldl_cons]
    set acc2 := if acc.2 < f a then (some a, f a) else acc with hacc2
    obtain ⟨ih1, ih2, ih3⟩ := ih acc2
    have hstep : acc.2 ≤ acc2.2 ∧ f a ≤ acc2.2 := by
      rw [hacc2]
      split_ifs with hc
      · exact ⟨le_of_lt hc, le_rfl⟩
      · exact ⟨le_rfl, not_lt.mp hc⟩
    refine ⟨?_, le_trans hstep.1 ih2, ?_⟩
    · rcases ih1 with h | ⟨b, hb, hb1, hb2⟩
      · rw [h, hacc2]
        split_ifs with hc
        · exact Or.inr ⟨a, List.mem_cons_self a t, rfl, rfl⟩
        · exact Or.inl rfl
      · exact Or.inr ⟨b, List.mem_cons_of_mem a hb, hb1, hb2⟩
    · intro b hb
      rcases List.mem_cons.mp hb with rfl | hbt
      · exact le_trans hstep.2 ih2
      · exact ih3 b hbt

/-- `bestCandidate` specification: the result is either the untouched
initial accumulator `(None, -1.0)` or some audio file with its similarity
score, and the score dominates every audio file's score. -/
theorem bestCandidate_spec (vfp : Option (List ℚ)) (audios : List String)
    (fp : String → Option (List ℚ)) :
    (bestCandidate vfp audios fp = (none, -1) ∨
      ∃ a ∈ audios, (bestCandidate vfp audios fp).1 = some a ∧
        (bestCandidate vfp audios fp).2 = fingerprint_similarity vfp (fp a)) ∧
    (∀ a ∈ audios, fingerprint_similarity vfp (fp a) ≤ (bestCandidate vfp audios fp).2) := by
  have h := bestCandidate_foldl_spec (fun a => fingerprint_similarity vfp (fp a))
    audios (none, -1)
  exact ⟨h.1, h.2.2⟩

/-! ## Mutation lemmas (for claim C10) -/

theorem list_map_eq_self_iff (f : ℚ → ℚ) (l : List ℚ) :
    l.map f = l ↔ ∀ x ∈ l, f x = x := by
  induction l with
  | nil => simp
  | cons a t ih => simp [ih]

/-- A constant buffer has the constant as mean and zero variance. -/
theorem const_mean_variance (y : List ℚ) (c : ℚ) (hne : y ≠ [])
    (hc : ∀ x ∈ y, x = c) : npMean y = c ∧ npVariance y = 0 := by
  have hrep : y = List.replicate y.length c := List.eq_replicate_of_mem hc
  have hlen : (y.length : ℚ) ≠ 0 := by
    have := List.length_pos.mpr hne
    positivity
  have hmean : npMean y = c := by
    unfold npMean
    conv_lhs => rw [hrep]
    rw [List.sum_replicate, List.length_replicate, nsmul_eq_mul]
    field_simp
  refine ⟨hmean, ?_⟩
  unfold npVariance
  rw [hmean]
  have hz : (y.map fun v => (v - c) ^ 2).sum = 0 := by
    apply List.sum_eq_zero
    intro x hx
    obtain ⟨w, hw, rfl⟩ := List.mem_map.mp hx
    rw [hc w hw]
    ring
  rw [hz, zero_div]

/-- A buffer with nonzero mean is genuinely mutated by `_normalize`. -/
theorem _normalize_ne_self (y : List ℚ) (hy : npMean y ≠ 0) : _normalize y ≠ y := by
  have hylen : y ≠ [] := by
    intro h
    subst h
    simp [npMean] at hy
  intro he
  unfold _normalize at he
  split_ifs at he with hvar
  · rw [List.map_map] at he
    have hpt := (list_map_eq_self_iff _ y).mp he
    have hvne : npVariance y ≠ 0 := ne_of_gt (lt_trans (by norm_num) hvar)
    by_cases hv1 : npVariance y = 1
    · obtain ⟨x0, hx0⟩ := List.exists_mem_of_ne_nil y hylen
      have hx := hpt x0 hx0
      simp only [Function.comp] at hx
      rw [hv1, div_one] at hx
      exact hy (by linarith)
    · have hconst : ∀ x ∈ y, x = npMean y / (1 - npVariance y) := by
        intro x hx
        have hpx := hpt x hx
        simp only [Function.comp] at hpx
        rw [div_eq_iff hvne] at hpx
        rw [eq_div_iff (by intro h0; exact hv1 (by linarith))]
        linarith [hpx]
      obtain ⟨-, hvar0⟩ := const_mean_variance y _ hylen hconst
      rw [hvar0] at hvar
      norm_num at hvar
  · have hpt := (list_map_eq_self_iff _ y).mp he
    obtain ⟨x0, hx0⟩ := List.exists_mem_of_ne_nil y hylen
    have hx := hpt x0 hx0
    exact hy (by linarith)

/-- Post-call contents of a buffer, entry by entry. -/
theorem _normalize_getD (y : List ℚ) (i : ℕ) (h : i < y.length) :
    (_normalize y).getD i 0 =
      if npVariance y > 1 / 10 ^ 16 then (y.getD i 0 - npMean y) / npVariance y
      else y.getD i 0 - npMean y := by
  unfold _normalize
  split_ifs with hv
  · rw [getD_map _ _ _ (by simpa using h), getD_map _ _ _ h]
  · rw [getD_map _ _ _ h]

/-! ## The claims -/

/-- Claim C1: for every pair analysis (enhanced, series or movie) in which
the start delay was computed, both durations `D_p` and `D_s` were obtained,
and the two end segments have min length greater than the sample rate
(more than 1 s at 8000 Hz), the returned `end_delay_ms` equals the
cross-correlation estimate on the min-length-truncated end segments plus
`(D_p − D_s) × 1000` milliseconds. -/
theorem claim_C1 :
    (∀ (primary_path secondary_path : String) (P S : SegSource)
      (segment_sec : ℚ) (sp ss ep es : List ℚ) (dp ds : ℚ),
      P.seg "start" 0 = some sp → S.seg "start" 0 = some ss →
      8000 < min sp.length ss.length →
      P.dur = some dp → S.dur = some ds →
      P.seg "end" (max 0 (dp - segment_sec)) = some ep →
      S.seg "end" (max 0 (ds - segment_sec)) = some es →
      8000 < min ep.length es.length →
      (enhanced_process_pair primary_path secondary_path P S segment_sec).endDelay =
        some (estimate_sync_offset_crosscorr
          (ep.take (min ep.length es.length)) (es.take (min ep.length es.length)) 8000 +
          (dp - ds) * 1000)) ∧
    (∀ (primary_path secondary_path : String) (P S : RawSource)
      (segment_sec : ℚ) (sp ss ep es : List ℚ) (dp ds : ℚ),
      P.load 0 = some sp → S.load 0 = some ss →
      8000 < min sp.length ss.length →
      P.dur = some dp → S.dur = some ds →
      P.load (max 0 (dp - segment_sec)) = some ep →
      S.load (max 0 (ds - segment_sec)) = some es →
      8000 < min ep.length es.length →
      (series_process_pair primary_path secondary_path P S segment_sec).endDelay =
        some (estimate_sync_offset_crosscorr
          (ep.take (min ep.length es.length)) (es.take (min ep.length es.length)) 8000 +
          (dp - ds) * 1000)) ∧
    (∀ (video_path audio_path : String) (V A : RawSource)
      (segment_sec : ℚ) (sp ss ep es : List ℚ) (dp ds : ℚ),
      V.load 0 = some sp → A.load 0 = some ss →
      8000 < min sp.length ss.length →
      V.dur = some dp → A.dur = some ds →
      V.load (max 0 (dp - segment_sec)) = some ep →
      A.load (max 0 (ds - segment_sec)) = some es →
      8000 < min ep.length es.length →
      (movie_process_pair video_path audio_path V A segment_sec).endDelay =
        some (estimate_sync_offset_crosscorr
          (ep.take (min ep.length es.length)) (es.take (min ep.length es.length)) 8000 +
          (dp - ds) * 1000)) :=
  ⟨enh_end_delay_eq, series_end_delay_eq, movie_end_delay_eq⟩

/-- Witness for claim C1: a concrete successful analysis in which the
returned end delay is exactly the end-segment estimate plus the duration
difference in milliseconds. -/
theorem claim_C1_witness :
    (enhanced_process_pair "v.mkv" "a.mp3"
      ⟨fun _ _ => some (List.replicate 8001 (1 : ℚ)), some 60⟩
      ⟨fun _ _ => some (List.replicate 8001 (1 : ℚ)), some 50⟩ 300).endDelay =
      some (estimate_sync_offset_crosscorr
        ((List.replicate 8001 (1 : ℚ)).take
          (min (List.replicate 8001 (1 : ℚ)).length (List.replicate 8001 (1 : ℚ)).length))
        ((List.replicate 8001 (1 : ℚ)).take
          (min (List.replicate 8001 (1 : ℚ)).length (List.replicate 8001 (1 : ℚ)).length))
        8000 + ((60 : ℚ) - 50) * 1000) :=
  claim_C1.1 "v.mkv" "a.mp3" _ _ 300 _ _ _ _ 60 50 rfl rfl
    (by simp only [List.length_replicate, min_self]; norm_num) rfl rfl rfl rfl
    (by simp only [List.length_replicate, min_self]; norm_num)

/-- Claim C2: the estimator returns exactly what the spec describes —
`((least index of the global maximum of the full cross-correlation of the
mean-subtracted, conditionally normalized primary with the time-reversed,
equally normalized secondary) − (len(secondary) − 1)) / sr × 1000`, where
the normalizing division is applied only when the deviation guard passes. -/
theorem claim_C2 (p s : List ℚ) (sr : ℚ) (hsr : 0 < sr) :
    estimate_sync_offset_crosscorr p s sr = estimateSpec p s sr := by
  simp only [estimate_sync_offset_crosscorr, estimateSpec, specNormalize_eq]
  have hargmax : npArgmax (fftconvolve_full (_normalize p) (_normalize s).reverse) =
      leastMaxIdx (specCorr p s) ((_normalize p).length + (_normalize s).length - 1) := by
    set conv := fftconvolve_full (_normalize p) (_normalize s).reverse with hconv
    have hlen : conv.length = (_normalize p).length + (_normalize s).length - 1 := by
      rw [hconv, fftconvolve_full_length, List.length_reverse]
    by_cases hne : conv = []
    · have h0 : (_normalize p).length + (_normalize s).length - 1 = 0 := by
        rw [← hlen, hne]
        rfl
      rw [hne, h0]
      rfl
    · rw [npArgmax_eq_leastMaxIdx conv hne, hlen]
      apply leastMaxIdx_congr
      intro k hk
      unfold specCorr
      simp only [specNormalize_eq]
      rw [fftconvolve_full_getD _ _ _ (by simpa using hk)]
  rw [hargmax]

/-- Witness for claim C2 at a concrete input. -/
theorem claim_C2_witness :
    estimate_sync_offset_crosscorr [1, 3, 2] [2, 1, 5] 7 = estimateSpec [1, 3, 2] [2, 1, 5] 7 :=
  claim_C2 [1, 3, 2] [2, 1, 5] 7 (by norm_num)

/-- Counterexample to claim C3 as stated ("for any buffer b"): on the
constant buffer `[1, 1]` the normalized signal is identically zero, the
cross-correlation is identically zero, `np.argmax` returns index 0, and the
estimator returns `(0 − 1)/8000 × 1000 = −1/8 ms`, not 0. -/
theorem claim_C3_counterexample :
    estimate_sync_offset_crosscorr [1, 1] [1, 1] 8000 ≠ 0 := by
  with_unfolding_all decide

/-- Claim C3 (amended): for any buffer `b` that is *not constant* (it has
two samples with different values) and any positive sample rate, calling
the estimator with two identical copies of `b` returns exactly 0 ms.
(For constant buffers the tie-broken argmax lands at index 0 instead of the
center, see the counterexample.) -/
theorem claim_C3 (b : List ℚ) (sr : ℚ) (hsr : 0 < sr)
    (hb : ∃ i j, i < b.length ∧ j < b.length ∧ b.getD i 0 ≠ b.getD j 0) :
    estimate_sync_offset_crosscorr b b sr = 0 := by
  have hlen : (_normalize b).length = b.length := _normalize_length b
  have hpos : 1 ≤ b.length := by
    obtain ⟨i, j, hi, _⟩ := hb
    omega
  have hz : _normalize b ≠ [] := by
    intro h
    rw [h] at hlen
    simp at hlen
    omega
  have harg := npArgmax_conv_rev (_normalize b) hz (_normalize_ne_zero b hb)
  simp only [estimate_sync_offset_crosscorr]
  rw [harg, hlen]
  have hcast : ((b.length - 1 : ℕ) : ℤ) - ((b.length : ℤ) - 1) = 0 := by omega
  rw [hcast]
  simp

/-- Witness for claim C3: the non-constant buffer `[1, 2]` against itself
yields exactly 0 ms. -/
theorem claim_C3_witness : estimate_sync_offset_crosscorr [1, 2] [1, 2] 8000 = 0 :=
  claim_C3 [1, 2] 8000 (by norm_num) ⟨0, 1, by decide, by decide, by with_unfolding_all decide⟩

/-- Claim C4: every pair-analysis value (enhanced, series or movie) is
well-formed — if `end_delay_ms` is present then `start_delay_ms` is
present, and whenever either is absent the error field carries a non-empty
message. -/
theorem claim_C4 :
    (∀ (primary_path secondary_path : String) (P S : SegSource) (segment_sec : ℚ),
      ((enhanced_process_pair primary_path secondary_path P S segment_sec).endDelay.isSome →
        (enhanced_process_pair primary_path secondary_path P S segment_sec).startDelay.isSome) ∧
      (((enhanced_process_pair primary_path secondary_path P S segment_sec).startDelay = none ∨
        (enhanced_process_pair primary_path secondary_path P S segment_sec).endDelay = none) →
        ∃ m, (enhanced_process_pair primary_path secondary_path P S segment_sec).error
            = some m ∧ m ≠ "")) ∧
    (∀ (primary_path secondary_path : String) (P S : RawSource) (segment_sec : ℚ),
      ((series_process_pair primary_path secondary_path P S segment_sec).endDelay.isSome →
        (series_process_pair primary_path secondary_path P S segment_sec).startDelay.isSome) ∧
      (((series_process_pair primary_path secondary_path P S segment_sec).startDelay = none ∨
        (series_process_pair primary_path secondary_path P S segment_sec).endDelay = none) →
        ∃ m, (series_process_pair primary_path secondary_path P S segment_sec).error
            = some m ∧ m ≠ "")) ∧
    (∀ (video_path audio_path : String) (V A : RawSource) (segment_sec : ℚ),
      ((movie_process_pair video_path audio_path V A segment_sec).endDelay.isSome →
        (movie_process_pair video_path audio_path V A segment_sec).startDelay.isSome) ∧
      (((movie_process_pair video_path audio_path V A segment_sec).startDelay = none ∨
        (movie_process_pair video_path audio_path V A segment_sec).endDelay = none) →
        ∃ m, (movie_process_pair video_path audio_path V A segment_sec).error
            = some m ∧ m ≠ "")) :=
  ⟨enh_wellformed, series_wellformed, movie_wellformed⟩

/-- Witness for claim C4: a concrete failing analysis (start segment cannot
be loaded) carries a non-empty error message. -/
theorem claim_C4_witness :
    ∃ m, (enhanced_process_pair "v.mkv" "a.mp3"
      ⟨fun _ _ => none, none⟩ ⟨fun _ _ => none, none⟩ 300).error = some m ∧ m ≠ "" :=
  (claim_C4.1 "v.mkv" "a.mp3" ⟨fun _ _ => none, none⟩ ⟨fun _ _ => none, none⟩ 300).2
    (Or.inl rfl)

set_option maxRecDepth 100000 in
/-- Counterexample to claim C5 as stated: on an 81-sample buffer at
`sr = 80`, `w_sec = 1` (so `w_sec × sr = 80 < 81`), the windower returns 79
samples, not exactly `w_sec × sr = 80`: the chosen start index `idx × hop`
can leave fewer than `window_len` samples before the end of the buffer, and
the slice is truncated by `end = min(len(y), start + window_len)`. -/
theorem claim_C5_counterexample :
    (List.replicate 78 (0 : ℚ) ++ [6, 8] ++ [0]).length = 81 ∧
    windowLen 80 1 = 80 ∧
    (select_high_energy_window (List.replicate 78 (0 : ℚ) ++ [6, 8] ++ [0]) 80 1).length
      = 79 := by
  refine ⟨by decide, by with_unfolding_all decide, by with_unfolding_all decide⟩

/-- Claim C5 (amended): if `len(y) ≤ max(1, ⌊w_sec×sr⌋)` the energy
windower returns `y` unchanged; otherwise (when the frame and hop are
positive and the RMS sequence is non-empty) it returns the contiguous slice
of `y` of *at most* `window_len` samples starting at `idx × hop`, where
`idx` is the argmax of the RMS sequence convolved with a uniform window of
`max(1, ⌊w_sec/hop_sec⌋)` frames when there are at least that many RMS
frames, and the argmax of the raw RMS sequence otherwise; the returned
length is `min(window_len, len(y) − idx × hop)`, which can be smaller than
`w_sec × sr`. -/
theorem claim_C5 (y : List ℚ) (sr window_sec : ℚ) :
    (y.length ≤ windowLen sr window_sec →
      select_high_energy_window y sr window_sec = y) ∧
    (windowLen sr window_sec < y.length → frameLen sr ≠ 0 → hopLen sr ≠ 0 →
      rmsFrames y (frameLen sr) (hopLen sr) ≠ [] →
      select_high_energy_window y sr window_sec =
        (y.drop (selectIdx y sr window_sec * hopLen sr)).take (windowLen sr window_sec) ∧
      (select_high_energy_window y sr window_sec).length =
        min (windowLen sr window_sec) (y.length - selectIdx y sr window_sec * hopLen sr)) := by
  constructor
  · intro hle
    unfold select_high_energy_window
    by_cases h0 : y.length = 0
    · rw [if_pos h0]
    · rw [if_neg h0]
      simp only [if_pos hle]
  · intro hgt hframe hhop hrms
    have hsel : select_high_energy_window y sr window_sec =
        (y.drop (selectIdx y sr window_sec * hopLen sr)).take (windowLen sr window_sec) := by
      unfold select_high_energy_window selectIdx
      rw [if_neg (by omega : ¬ y.length = 0)]
      simp only [if_neg (not_le.mpr hgt),
        if_neg (show ¬(frameLen sr = 0 ∨ hopLen sr = 0) by simp [hframe, hhop]),
        if_neg (show ¬(rmsFrames y (frameLen sr) (hopLen sr)).length = 0 by
          simpa [List.length_eq_zero] using hrms)]
    refine ⟨hsel, ?_⟩
    rw [hsel]
    simp only [List.length_take, List.length_drop]

set_option maxRecDepth 10000 in
/-- Witness for claim C5: a short buffer is returned unchanged, and a
41-sample buffer at `sr = 40`, `w_sec = 1` is windowed to the predicted
slice. -/
theorem claim_C5_witness :
    select_high_energy_window [(1 : ℚ)] 40 1 = [1] ∧
    select_high_energy_window (List.replicate 41 (1 : ℚ)) 40 1 =
      ((List.replicate 41 (1 : ℚ)).drop
        (selectIdx (List.replicate 41 (1 : ℚ)) 40 1 * hopLen 40)).take (windowLen 40 1) :=
  ⟨(claim_C5 [(1 : ℚ)] 40 1).1 (by with_unfolding_all decide),
   ((claim_C5 (List.replicate 41 (1 : ℚ)) 40 1).2
      (by with_unfolding_all decide) (by with_unfolding_all decide)
      (by with_unfolding_all decide) (by with_unfolding_all decide)).1⟩

/-- Claim C6: a pairing `(video, audio)` is emitted by the fingerprint
matcher if and only if some audio fingerprint scores at least the threshold
against the video's fingerprint (equivalently, the maximum score reaches
the threshold); videos whose best score is below the threshold are omitted.
Stated for any threshold above the `-1.0` fold sentinel (the default `0.7`
qualifies) and audio paths that are non-empty strings (Python truthiness of
`best_audio`; paths produced by `glob` are never empty). -/
theorem claim_C6 (video_files audio_files : List String) (fp : String → Option (List ℚ))
    (threshold : ℚ) (hth : -1 < threshold)
    (hpaths : ∀ a ∈ audio_files, a ≠ "")
    (v : String) (hv : v ∈ video_files) :
    (∃ a, (v, a) ∈ match_by_fingerprint video_files audio_files fp threshold) ↔
    (∃ a ∈ audio_files, threshold ≤ fingerprint_similarity (fp v) (fp a)) := by
  constructor
  · rintro ⟨a, ha⟩
    obtain ⟨v2, hv2, hg⟩ := List.mem_filterMap.mp ha
    rcases hb1 : (bestCandidate (fp v2) audio_files fp).1 with _ | b
    · simp only [hb1] at hg
      exact absurd hg (by simp)
    · simp only [hb1] at hg
      split_ifs at hg with hcond
      · have hp := Option.some_injective _ hg
        obtain ⟨hv2v, hba⟩ := Prod.mk.inj hp
        obtain ⟨spec1, _⟩ := bestCandidate_spec (fp v2) audio_files fp
        rcases spec1 with hid | ⟨b2, hb2, hb21, hb22⟩
        · rw [hid] at hb1
          simp at hb1
        · rw [hb1] at hb21
          refine ⟨b2, hb2, ?_⟩
          rw [← hv2v, ← hb22]
          exact hcond.2
  · rintro ⟨a, ha, hscore⟩
    obtain ⟨spec1, spec3⟩ := bestCandidate_spec (fp v) audio_files fp
    have hs2 : threshold ≤ (bestCandidate (fp v) audio_files fp).2 :=
      le_trans hscore (spec3 a ha)
    rcases spec1 with hid | ⟨b, hb, hb1, hb2⟩
    · rw [hid] at hs2
      exact absurd hs2 (not_le.mpr hth)
    · refine ⟨b, List.mem_filterMap.mpr ⟨v, hv, ?_⟩⟩
      simp only [hb1]
      rw [if_pos ⟨hpaths b hb, hs2⟩]

/-- Witness for claim C6: with one video and one audio whose fingerprints
are identical unit vectors (score 1 ≥ 0.7), the pairing is emitted. -/
theorem claim_C6_witness :
    ∃ a, ("v.mkv", a) ∈
      match_by_fingerprint ["v.mkv"] ["a.mp3"] (fun _ => some [1]) (7 / 10) :=
  (claim_C6 ["v.mkv"] ["a.mp3"] (fun _ => some [1]) (7 / 10) (by norm_num)
    (by intro a ha; simp at ha; simp [ha]) "v.mkv" (by simp)).mpr
    ⟨"a.mp3", by simp, by with_unfolding_all decide⟩

/-- Claim C7: every array the acquisition path stores in the segment cache
is the energy-windowed output of the windower applied to the decoded
buffer, never the raw decoded buffer: any entry of the cache after
`load_audio_segment` was either already present or is
`select_high_energy_window` of the decoded buffer, stored under the
acquisition key on a cache miss that decoded successfully. -/
theorem claim_C7 (st : Cache) (path : String) (stat : Option (ℚ × ℤ))
    (sr duration offset window_sec : ℚ) (tag : String) (decoded : Option (List ℚ))
    (k : String) (v : List ℚ)
    (h : load_cached_array
      (load_audio_segment st path stat sr duration offset tag window_sec decoded).2 k
      = some v) :
    load_cached_array st k = some v ∨
    (k = cache_key path stat sr duration offset tag ∧
      ∃ y, decoded = some y ∧ v = select_high_energy_window y sr window_sec) := by
  unfold load_audio_segment at h
  simp only [] at h
  rcases hc : load_cached_array st (cache_key path stat sr duration offset tag) with _ | c
  · rw [hc] at h
    rcases decoded with _ | y
    · exact Or.inl h
    · simp only [] at h
      unfold save_cached_array load_cached_array at h
      split_ifs at h with hk
      · exact Or.inr ⟨hk.symm, y, rfl, (Option.some_injective _ h).symm⟩
      · exact Or.inl h
  · rw [hc] at h
    exact Or.inl h

set_option maxRecDepth 10000 in
/-- Witness for claim C7: a concrete store into the empty cache yields the
windowed buffer under the acquisition key. -/
theorem claim_C7_witness :
    load_cached_array ([] : Cache) (cache_key "p.mkv" none 8000 300 0 "start") = some [1] ∨
    (cache_key "p.mkv" none 8000 300 0 "start" = cache_key "p.mkv" none 8000 300 0 "start" ∧
      ∃ y, (some [1] : Option (List ℚ)) = some y ∧
        [(1 : ℚ)] = select_high_energy_window y 8000 30) :=
  claim_C7 [] "p.mkv" none 8000 300 0 30 "start" (some [1])
    (cache_key "p.mkv" none 8000 300 0 "start") [1] (by with_unfolding_all decide)

set_option maxRecDepth 10000 in
/-- Counterexample to claim C8 as stated: an entry stored under a stat-less
key *is* returned by a later lookup with the same stat-less key — the cache
directory persists across program invocations and the key text is a
deterministic function of the remaining fields, so nothing prevents reuse. -/
theorem claim_C8_counterexample :
    load_cached_array
      (load_audio_segment ([] : Cache) "a.mkv" none 8000 300 0 "start" 30 (some [1])).2
      (cache_key "a.mkv" none 8000 300 0 "start") = some [1] := by
  with_unfolding_all decide

/-- Claim C8 (amended): when file stats cannot be read the acquisition key
is built from the remaining fields only, and — contrary to the spec's
intent — a cache entry stored under such a stat-less key *is* reused by a
later invocation: a `get` with the same stat-less key on the persisted
cache returns exactly the previously stored windowed buffer. -/
theorem claim_C8 (st : Cache) (path : String)
    (sr duration offset window_sec : ℚ) (tag : String) (y : List ℚ)
    (hmiss : load_cached_array st (cache_key path none sr duration offset tag) = none) :
    load_cached_array
      (load_audio_segment st path none sr duration offset tag window_sec (some y)).2
      (cache_key path none sr duration offset tag) =
      some (select_high_energy_window y sr window_sec) := by
  unfold load_audio_segment
  simp only []
  rw [hmiss]
  unfold save_cached_array load_cached_array
  rw [if_pos rfl]

/-- Witness for claim C8 at a concrete stat-less acquisition. -/
theorem claim_C8_witness :
    load_cached_array
      (load_audio_segment ([] : Cache) "p.mkv" none 8000 300 0 "start" 30 (some [1])).2
      (cache_key "p.mkv" none 8000 300 0 "start") =
      some (select_high_energy_window [1] 8000 30) :=
  claim_C8 [] "p.mkv" 8000 300 0 30 "start" [1] rfl

/-- Counterexample to claim C9 as stated: the series saver's header row is
`Primary File, Secondary File, …`, not `Video File, Audio File, …`. -/
theorem claim_C9_counterexample :
    (series_save_results_to_csv [⟨"v.mkv", "a.mp3", some 1, some 2, none⟩]).headD [] ≠
      ["Video File", "Audio File", "Start Delay (ms)", "End Delay (ms)", "Error"] := by
  decide

/-- Claim C9 (amended): for every non-empty results list, the series saver
writes header `Primary File, Secondary File, Start Delay (ms), End Delay
(ms), Error` and the movie saver (whose module never imports `csv`, so at
runtime it raises `NameError` and writes nothing) would write header
`Video File, Audio File, Start Delay (ms), End Delay (ms), Error`; both are
followed by one row per result whose start-delay, end-delay and error cells
are empty exactly when the corresponding value is absent (given that error
messages are never the empty string, which holds for every message the
analyzers produce — see claim C4). -/
theorem claim_C9 (results : List PairReport) (hne : results ≠ [])
    (herr : ∀ r ∈ results, r.error ≠ some "") :
    series_save_results_to_csv results =
      ["Primary File", "Secondary File", "Start Delay (ms)", "End Delay (ms)", "Error"] ::
        results.map csvRow ∧
    movie_save_results_to_csv results =
      ["Video File", "Audio File", "Start Delay (ms)", "End Delay (ms)", "Error"] ::
        results.map csvRow ∧
    ∀ r ∈ results,
      csvRow r = [basename r.primaryPath, basename r.secondaryPath,
        csvCell r.startDelay, csvCell r.endDelay, csvErrCell r.error] ∧
      (csvCell r.startDelay = "" ↔ r.startDelay = none) ∧
      (csvCell r.endDelay = "" ↔ r.endDelay = none) ∧
      (csvErrCell r.error = "" ↔ r.error = none) := by
  refine ⟨rfl, rfl, fun r hr => ⟨rfl, ?_, ?_, ?_⟩⟩
  · rcases h : r.startDelay with _ | q
    · simp [csvCell]
    · simpa [csvCell] using ratToString_ne_empty q
  · rcases h : r.endDelay with _ | q
    · simp [csvCell]
    · simpa [csvCell] using ratToString_ne_empty q
  · rcases h : r.error with _ | msg
    · simp [csvErrCell]
    · have hm : msg ≠ "" := by
        intro hrm
        exact herr r hr (by rw [h, hrm])
      simpa [csvErrCell] using hm

/-- Witness for claim C9: a concrete one-row results list produces the
series header followed by its row. -/
theorem claim_C9_witness :
    series_save_results_to_csv [⟨"v.mkv", "a.mp3", some 1, none, some "boom"⟩] =
      ["Primary File", "Secondary File", "Start Delay (ms)", "End Delay (ms)", "Error"] ::
        [⟨"v.mkv", "a.mp3", some 1, none, some "boom"⟩].map csvRow :=
  (claim_C9 [⟨"v.mkv", "a.mp3", some 1, none, some "boom"⟩] (by simp)
    (by intro r hr; simp at hr; subst hr; simp)).1

/-- Counterexample to claim C10's blanket "the inputs are not left
unchanged": an all-zero buffer has zero mean and zero deviation, so the
in-place normalization leaves its contents bit-identical. -/
theorem claim_C10_counterexample :
    estimatorPostBuffers [0, 0] [0, 0] = ([0, 0], [0, 0]) := by
  with_unfolding_all decide

/-- Claim C10 (amended): the estimator mutates its input arrays in place —
after a call each caller-supplied buffer holds its mean-subtracted and,
when the deviation guard passed, scaled form, entry by entry; any buffer
with nonzero mean is genuinely changed (an already zero-mean buffer with
deviation under the guard, e.g. all zeros, is the exception — see the
counterexample). -/
theorem claim_C10 (p s : List ℚ) (hp : npMean p ≠ 0) (hs : npMean s ≠ 0) :
    (∀ i, i < p.length → (estimatorPostBuffers p s).1.getD i 0 =
      (if npVariance p > 1 / 10 ^ 16 then (p.getD i 0 - npMean p) / npVariance p
       else p.getD i 0 - npMean p)) ∧
    (∀ i, i < s.length → (estimatorPostBuffers p s).2.getD i 0 =
      (if npVariance s > 1 / 10 ^ 16 then (s.getD i 0 - npMean s) / npVariance s
       else s.getD i 0 - npMean s)) ∧
    (estimatorPostBuffers p s).1 ≠ p ∧ (estimatorPostBuffers p s).2 ≠ s :=
  ⟨fun i h => _normalize_getD p i h, fun i h => _normalize_getD s i h,
   _normalize_ne_self p hp, _normalize_ne_self s hs⟩

/-- Witness for claim C10: buffers with nonzero mean really are mutated. -/
theorem claim_C10_witness :
    (estimatorPostBuffers [1, 2] [3, 4]).1 ≠ [1, 2] ∧
    (estimatorPostBuffers [1, 2] [3, 4]).2 ≠ [3, 4] :=
  ⟨(claim_C10 [1, 2] [3, 4] (by with_unfolding_all decide)
      (by with_unfolding_all decide)).2.2.1,
   (claim_C10 [1, 2] [3, 4] (by with_unfolding_all decide)
      (by with_unfolding_all decide)).2.2.2⟩

end AudioSync
